import Mathlib

/-!
Verification of the Volcengine TTS streaming client
(`src/pipecat/services/volcengine.py`).

Bytes are modelled as natural numbers (< 256 in any real frame); byte
strings are `List Nat`.  Python operations that can raise (indexing past
the end of a `bytes` object, `gzip.decompress` on a non-gzip stream,
`str(b, "utf-8")` on invalid UTF-8, `int.to_bytes` on an overflowing
value) are modelled with `Option`, `none` standing for the raised
exception.  Python's forgiving slicing (`res[a:b]` truncated to the
available bytes) is modelled with `List.take` / `List.drop`, which have
the same truncating behaviour.
-/

namespace Volcengine

/-- Big-endian unsigned value of a byte string, as computed by Python's
`int.from_bytes(b, "big", signed=False)`; the empty string gives 0. -/
def natFromBytesBE (b : List Nat) : Nat :=
  b.foldl (fun acc x => acc * 256 + x) 0

/-- Big-endian two's-complement value of a byte string, as computed by
Python's `int.from_bytes(b, "big", signed=True)`; the empty string gives
0, and a string whose leading bit is set is negative. -/
def intFromBytesBEsigned (b : List Nat) : Int :=
  let n := natFromBytesBE b
  if 256 ^ b.length ≤ 2 * n then (n : Int) - (256 : Int) ^ b.length else (n : Int)

/-- Big-endian byte string of width `k` for a natural number, as computed
by Python's `n.to_bytes(k, "big")` when `n < 256 ^ k`. -/
def toBytesBE : Nat → Nat → List Nat
  | 0, _ => []
  | k + 1, n => toBytesBE k (n / 256) ++ [n % 256]

/-- `n.to_bytes(k, "big")` including Python's `OverflowError` when the
value does not fit in `k` bytes. -/
def toBytesBEChecked (k n : Nat) : Option (List Nat) :=
  if n < 256 ^ k then some (toBytesBE k n) else none

/-- Boundary model of Python's `gzip.compress` (an external stdlib
collaborator, not code of this repository): an injective encoding that
starts with the gzip magic bytes `0x1f 0x8b`.  The claims depend only on
the round-trip with `gzip_decompress` and on decompression failing on
input that is not a gzip stream, which this model shares with real
gzip. -/
def gzip_compress (b : List Nat) : List Nat := 0x1f :: 0x8b :: b

/-- Boundary model of Python's `gzip.decompress`: inverts
`gzip_compress`, and fails (raises, modelled as `none`) on input that
does not start with the gzip magic bytes. -/
def gzip_decompress : List Nat → Option (List Nat)
  | 0x1f :: 0x8b :: rest => some rest
  | _ => none

/-- Is `c` a UTF-8 continuation byte (`0x80`–`0xbf`)? -/
def utf8ContByte (c : Nat) : Bool := decide (0x80 ≤ c ∧ c ≤ 0xbf)

/-- Fuel-indexed strict UTF-8 validity check (the check performed by
Python's `str(b, "utf-8")`): rejects overlong encodings, surrogates and
code points above `U+10FFFF`.  The fuel only serves termination; with
fuel `≥` list length the result is the real validity. -/
def utf8ValidAux : Nat → List Nat → Bool
  | _, [] => true
  | 0, _ :: _ => false
  | fuel + 1, b :: rest =>
    if b ≤ 0x7f then utf8ValidAux fuel rest
    else if 0xc2 ≤ b ∧ b ≤ 0xdf then
      match rest with
      | c1 :: r => utf8ContByte c1 && utf8ValidAux fuel r
      | [] => false
    else if b = 0xe0 then
      match rest with
      | c1 :: c2 :: r =>
        decide (0xa0 ≤ c1 ∧ c1 ≤ 0xbf) && utf8ContByte c2 && utf8ValidAux fuel r
      | _ => false
    else if (0xe1 ≤ b ∧ b ≤ 0xec) ∨ b = 0xee ∨ b = 0xef then
      match rest with
      | c1 :: c2 :: r => utf8ContByte c1 && utf8ContByte c2 && utf8ValidAux fuel r
      | _ => false
    else if b = 0xed then
      match rest with
      | c1 :: c2 :: r =>
        decide (0x80 ≤ c1 ∧ c1 ≤ 0x9f) && utf8ContByte c2 && utf8ValidAux fuel r
      | _ => false
    else if b = 0xf0 then
      match rest with
      | c1 :: c2 :: c3 :: r =>
        decide (0x90 ≤ c1 ∧ c1 ≤ 0xbf) && utf8ContByte c2 && utf8ContByte c3 &&
          utf8ValidAux fuel r
      | _ => false
    else if 0xf1 ≤ b ∧ b ≤ 0xf3 then
      match rest with
      | c1 :: c2 :: c3 :: r =>
        utf8ContByte c1 && utf8ContByte c2 && utf8ContByte c3 && utf8ValidAux fuel r
      | _ => false
    else if b = 0xf4 then
      match rest with
      | c1 :: c2 :: c3 :: r =>
        decide (0x80 ≤ c1 ∧ c1 ≤ 0x8f) && utf8ContByte c2 && utf8ContByte c3 &&
          utf8ValidAux fuel r
      | _ => false
    else false

/-- Strict UTF-8 validity of a byte string. -/
def utf8Valid (b : List Nat) : Bool := utf8ValidAux b.length b

/-- UTF-8 bytes of an ASCII string (for ASCII text the bytes are the
code points). -/
def asciiBytes (s : String) : List Nat := s.toList.map Char.toNat

/-- A decoded response frame: the header fields and slices extracted by
`parse_response` (volcengine.py lines 159–167) before the message-type
dispatch.  `header_extensions = res[4 : header_size*4]` and
`payload = res[header_size*4 :]`. -/
structure ResponseFrame where
  protocol_version : Nat
  header_size : Nat
  message_type : Nat
  message_type_specific_flags : Nat
  serialization_method : Nat
  message_compression : Nat
  reserved : Nat
  header_extensions : List Nat
  payload : List Nat
deriving DecidableEq

/-- Header decoding, volcengine.py lines 159–167: nibble reads of bytes
0–2, byte 3 reserved, then the two slices.  Reading bytes 0–3 raises
`IndexError` (modelled `none`) when the buffer is shorter than 4 bytes;
the slices never fail. -/
def decode (res : List Nat) : Option ResponseFrame :=
  match res[0]?, res[1]?, res[2]?, res[3]? with
  | some b0, some b1, some b2, some b3 =>
    let header_size := b0 % 16
    some ⟨b0 / 16, header_size, b1 / 16, b1 % 16, b2 / 16, b2 % 16, b3,
          (res.take (header_size * 4)).drop 4, res.drop (header_size * 4)⟩
  | _, _, _, _ => none

/-- The observable outcome of one `parse_response` call: the bytes
written to the open segment file, the returned `done` flag, and the
error code / message surfaced through `logger.error` in the
`message_type == 0xf` branch (`none` when nothing was logged). -/
structure ParseOutcome where
  audio : List Nat
  done : Bool
  errorLogged : Option (Nat × List Nat)
deriving DecidableEq

/-- `parse_response` (volcengine.py lines 156–214).  Dispatch on the
message-type nibble:
* `0xb` audio-only: flags 0 is a bare ACK (returns `False`); otherwise
  the first 4 payload bytes are the signed sequence number, the next 4
  the declared size (read and unused), the rest is written to the file,
  and the return value is `sequence_number < 0`;
* `0xf` error: 4-byte code, 4-byte size (unused), message bytes
  gzip-decompressed when the compression nibble is 1, then UTF-8
  decoded and logged; returns `True`;
* `0xc` frontend: 4-byte size, payload gzip-decompressed when flagged,
  discarded; falls through to the final `return True` (line 214);
* anything else: returns `True` immediately. -/
def parse_response (res : List Nat) : Option ParseOutcome :=
  match decode res with
  | none => none
  | some f =>
    if f.message_type = 0xb then
      if f.message_type_specific_flags = 0 then
        some ⟨[], false, none⟩
      else
        let sequence_number := intFromBytesBEsigned (f.payload.take 4)
        let _payload_size := natFromBytesBE ((f.payload.drop 4).take 4)
        let audio := f.payload.drop 8
        some ⟨audio, decide (sequence_number < 0), none⟩
    else if f.message_type = 0xf then
      let code := natFromBytesBE (f.payload.take 4)
      let _msg_size := natFromBytesBE ((f.payload.drop 4).take 4)
      match (if f.message_compression = 1 then gzip_decompress (f.payload.drop 8)
             else some (f.payload.drop 8)) with
      | none => none
      | some msgBytes =>
        if utf8Valid msgBytes then some ⟨[], true, some (code, msgBytes)⟩
        else none
    else if f.message_type = 0xc then
      let _msg_size := natFromBytesBE (f.payload.take 4)
      match (if f.message_compression = 1 then gzip_decompress (f.payload.drop 4)
             else some (f.payload.drop 4)) with
      | none => none
      | some _ => some ⟨[], true, none⟩
    else
      some ⟨[], true, none⟩

/-- The fixed request header built in `__init__` (volcengine.py line
61): version 1, header size 1 unit, message type FullClientRequest,
flags 0, serialization JSON, compression gzip, reserved 0, nibble-packed
as `b"\x11\x10\x11\x00"`. -/
def default_header : List Nat := [0x11, 0x10, 0x11, 0x00]

/-- Request encoding, volcengine.py lines 116–120: gzip-compress the
payload, then append to `default_header` the 4-byte big-endian length of
the compressed payload, then the compressed payload itself. -/
def encode_request (payload_bytes : List Nat) : Option (List Nat) :=
  let compressed := gzip_compress payload_bytes
  match toBytesBEChecked 4 compressed.length with
  | none => none
  | some lenBytes => some (default_header ++ lenBytes ++ compressed)

/-- Segment-assembly state of the receive loop in `run_tts`
(volcengine.py lines 125–153): `buf` is the content of the currently
open segment file `save_path.{idx}.pcm`, `closed` the contents, in
order, of the files already appended to `seg_list`. -/
structure AsmState where
  buf : List Nat
  closed : List (List Nat)
deriving DecidableEq

/-- One iteration of the receive loop after `parse_response` returned:
the parsed audio bytes were appended to the current segment file, and
the segment is closed (`idx += 1; seg_list.append(seg_path)`) when the
frame was terminal or the file size strictly exceeds `seg_size`
(volcengine.py line 137, write-then-check ordering). -/
def assembleStep (H : Nat) (s : AsmState) (audio : List Nat) (done : Bool) : AsmState :=
  let b := s.buf ++ audio
  if done ∨ H < b.length then ⟨[], s.closed ++ [b]⟩ else ⟨b, s.closed⟩

/-- The receive loop over a trace of already-parsed frames, each event
giving the audio bytes written and the `done` flag of one
`parse_response` call.  The loop breaks right after the terminal event;
a trace exhausted without a terminal event leaves the session blocked in
`recv` (modelled `none`). -/
def runEvents (H : Nat) : List (List Nat × Bool) → AsmState → Option AsmState
  | [], _ => none
  | (a, d) :: rest, s =>
    let s2 := assembleStep H s a d
    if d then some s2 else runEvents H rest s2

/-- The receive loop over a trace of raw frames: each frame goes through
`parse_response`; an exception there (modelled `none`) aborts the
session. -/
def runFrames (H : Nat) : List (List Nat) → AsmState → Option AsmState
  | [], _ => none
  | res :: rest, s =>
    match parse_response res with
    | none => none
    | some out =>
      let s2 := assembleStep H s out.audio out.done
      if out.done then some s2 else runFrames H rest s2

/-- The closed segments actually yielded to the caller as audio frames:
a closed segment file is read as 16-bit samples and yielded only when it
contains at least one sample (volcengine.py lines 143–148). -/
def yieldedSegments (s : AsmState) : List (List Nat) :=
  s.closed.filter (fun seg => 0 < seg.length / 2)

/-- Claim C1: for every AudioOnly response frame (message-type nibble
`0xb`) with a nonzero flags nibble, `parse_response` succeeds, writes
`payload[8:]` to the segment file, and returns terminal exactly when the
big-endian signed 32-bit sequence number at the head of the payload is
negative.  The statement quantifies over all frames, so it covers every
sequence number including -1, 0, 1, INT32_MIN and INT32_MAX. -/
theorem audio_only_terminal_iff_neg_seq (res : List Nat) (b0 b1 : Nat)
    (h0 : res[0]? = some b0) (h1 : res[1]? = some b1)
    (h2 : (res[2]?).isSome = true) (h3 : (res[3]?).isSome = true)
    (hmt : b1 / 16 = 0xb) (hfl : b1 % 16 ≠ 0) :
    ∃ out, parse_response res = some out ∧
      out.audio = (res.drop ((b0 % 16) * 4)).drop 8 ∧
      (out.done = true ↔ intFromBytesBEsigned ((res.drop ((b0 % 16) * 4)).take 4) < 0) := by
  obtain ⟨b2, hb2⟩ := Option.isSome_iff_exists.mp h2
  obtain ⟨b3, hb3⟩ := Option.isSome_iff_exists.mp h3
  refine ⟨⟨(res.drop ((b0 % 16) * 4)).drop 8,
          decide (intFromBytesBEsigned ((res.drop ((b0 % 16) * 4)).take 4) < 0), none⟩,
         ?_, rfl, by simp⟩
  simp [parse_response, decode, h0, h1, hb2, hb3, hmt, hfl]

/-- Closed instance of `audio_only_terminal_iff_neg_seq`: an AudioOnly
frame with flags 2 and sequence number -1 is terminal and its audio
bytes are the payload after the 8-byte sub-header. -/
theorem audio_only_terminal_iff_neg_seq_witness :
    ∃ out,
      parse_response [0x11, 0xb2, 0x11, 0x00, 0xff, 0xff, 0xff, 0xff, 0, 0, 0, 2, 1, 2] =
        some out ∧ out.done = true ∧ out.audio = [1, 2] := by
  obtain ⟨out, hsome, haudio, hiff⟩ := audio_only_terminal_iff_neg_seq
    [0x11, 0xb2, 0x11, 0x00, 0xff, 0xff, 0xff, 0xff, 0, 0, 0, 2, 1, 2] 0x11 0xb2
    (by decide) (by decide) (by decide) (by decide) (by decide) (by decide)
  refine ⟨out, hsome, hiff.mpr (by decide), ?_⟩
  rw [haudio]; decide

/-- Claim C10: an AudioOnly frame with nonzero flags whose payload is
shorter than 8 bytes is interpreted without failure: the sequence number
is read by big-endian conversion of the available (possibly empty)
prefix, the audio written is `payload[8:]` (empty), no size check is
performed, and the frame is non-terminal whenever the resulting sequence
number is non-negative; in particular an empty payload converts to 0 and
is non-terminal. -/
theorem short_audio_payload_no_failure (res : List Nat) (b0 b1 : Nat)
    (h0 : res[0]? = some b0) (h1 : res[1]? = some b1)
    (h2 : (res[2]?).isSome = true) (h3 : (res[3]?).isSome = true)
    (hmt : b1 / 16 = 0xb) (hfl : b1 % 16 ≠ 0)
    (hshort : (res.drop ((b0 % 16) * 4)).length < 8) :
    ∃ out, parse_response res = some out ∧
      out.audio = [] ∧
      out.errorLogged = none ∧
      (out.done = true ↔ intFromBytesBEsigned ((res.drop ((b0 % 16) * 4)).take 4) < 0) ∧
      (res.drop ((b0 % 16) * 4) = [] → out.done = false) := by
  obtain ⟨b2, hb2⟩ := Option.isSome_iff_exists.mp h2
  obtain ⟨b3, hb3⟩ := Option.isSome_iff_exists.mp h3
  refine ⟨⟨(res.drop ((b0 % 16) * 4)).drop 8,
          decide (intFromBytesBEsigned ((res.drop ((b0 % 16) * 4)).take 4) < 0), none⟩,
         ?_, ?_, rfl, by simp, ?_⟩
  · simp [parse_response, decode, h0, h1, hb2, hb3, hmt, hfl]
  · exact List.drop_eq_nil_of_le (by omega)
  · intro hnil
    simp [hnil, intFromBytesBEsigned, natFromBytesBE]

/-- Closed instance of `short_audio_payload_no_failure`: an AudioOnly
frame with flags 1 and a 2-byte payload parses to a non-terminal outcome
with no audio. -/
theorem short_audio_payload_no_failure_witness :
    ∃ out, parse_response [0x11, 0xb1, 0x11, 0x00, 0, 0] = some out ∧
      out.done = false ∧ out.audio = [] ∧ out.errorLogged = none := by
  obtain ⟨out, hsome, haudio, herr, hiff, -⟩ := short_audio_payload_no_failure
    [0x11, 0xb1, 0x11, 0x00, 0, 0] 0x11 0xb1
    (by decide) (by decide) (by decide) (by decide) (by decide) (by decide) (by decide)
  have hdone : out.done = false := by
    cases hd : out.done
    · rfl
    · exact absurd (hiff.mp hd) (by decide)
  exact ⟨out, hsome, hdone, haudio, herr⟩

/-- Amended claim C8: a response frame whose message-type nibble is not
`0xb`, `0xc` or `0xf` makes `parse_response` return terminal at once,
with no audio written and no error surfaced — nothing is raised; the
receive loop then completes the session normally. -/
theorem unknown_type_silent_terminal (res : List Nat) (b1 : Nat)
    (h0 : (res[0]?).isSome = true) (h1 : res[1]? = some b1)
    (h2 : (res[2]?).isSome = true) (h3 : (res[3]?).isSome = true)
    (hb : b1 / 16 ≠ 0xb) (hc : b1 / 16 ≠ 0xc) (hf : b1 / 16 ≠ 0xf) :
    parse_response res = some ⟨[], true, none⟩ := by
  obtain ⟨b0, hb0⟩ := Option.isSome_iff_exists.mp h0
  obtain ⟨b2, hb2⟩ := Option.isSome_iff_exists.mp h2
  obtain ⟨b3, hb3⟩ := Option.isSome_iff_exists.mp h3
  simp [parse_response, decode, hb0, h1, hb2, hb3, hb, hc, hf]

/-- Closed instance of `unknown_type_silent_terminal` at message type
`0x2`. -/
theorem unknown_type_silent_terminal_witness :
    parse_response [0x11, 0x20, 0x11, 0x00] = some ⟨[], true, none⟩ :=
  unknown_type_silent_terminal [0x11, 0x20, 0x11, 0x00] 0x20
    (by decide) (by decide) (by decide) (by decide) (by decide) (by decide) (by decide)

/-- Counterexample to claim C8 as stated: a frame with the unknown
message type `0x1` is interpreted with no exception and no error record
(`errorLogged = none`), and the receive loop then completes the session
normally (one forced empty segment), so nothing resembling an
`UnknownMessageType` failure is raised. -/
theorem unknown_type_counterexample :
    parse_response [0x11, 0x10, 0x11, 0x00] = some ⟨[], true, none⟩ ∧
    runFrames 0 [[0x11, 0x10, 0x11, 0x00]] ⟨[], []⟩ = some ⟨[], [[]]⟩ := by
  decide

/-- Amended claim C3: a Frontend/control response frame (message-type
nibble `0xc`) yields no audio bytes and surfaces no error — its payload
(gzip-decompressed when the compression nibble is 1) is discarded — but
it IS terminal: `parse_response` falls through to `return True`, so the
receive loop stops instead of continuing. -/
theorem frontend_frame_discards_payload_and_terminates (res : List Nat) (b1 : Nat)
    (out : ParseOutcome)
    (h0 : (res[0]?).isSome = true) (h1 : res[1]? = some b1)
    (h2 : (res[2]?).isSome = true) (h3 : (res[3]?).isSome = true)
    (hmt : b1 / 16 = 0xc)
    (hp : parse_response res = some out) :
    out.done = true ∧ out.audio = [] ∧ out.errorLogged = none := by
  obtain ⟨b0, hb0⟩ := Option.isSome_iff_exists.mp h0
  obtain ⟨b2, hb2⟩ := Option.isSome_iff_exists.mp h2
  obtain ⟨b3, hb3⟩ := Option.isSome_iff_exists.mp h3
  simp [parse_response, decode, hb0, h1, hb2, hb3, hmt] at hp
  split at hp
  · exact Option.noConfusion hp
  · cases hp
    exact ⟨rfl, rfl, rfl⟩

/-- Closed instance of `frontend_frame_discards_payload_and_terminates`:
a frontend frame with gzip-compressed payload parses to a terminal
outcome with no audio and no error. -/
theorem frontend_frame_discards_payload_and_terminates_witness :
    ∃ out,
      parse_response ([0x11, 0xc1, 0x11, 0x00] ++ [0, 0, 0, 3] ++ gzip_compress [1, 2, 3]) =
        some out ∧ out.done = true ∧ out.audio = [] ∧ out.errorLogged = none := by
  have hp : parse_response ([0x11, 0xc1, 0x11, 0x00] ++ [0, 0, 0, 3] ++ gzip_compress [1, 2, 3]) =
      some ⟨[], true, none⟩ := by decide
  have h := frontend_frame_discards_payload_and_terminates
    ([0x11, 0xc1, 0x11, 0x00] ++ [0, 0, 0, 3] ++ gzip_compress [1, 2, 3]) 0xc1 ⟨[], true, none⟩
    (by decide) (by decide) (by decide) (by decide) (by decide) hp
  exact ⟨_, hp, h.1, h.2.1, h.2.2⟩

/-- Counterexample to claim C3 as stated: for a concrete Frontend frame
`parse_response` returns `True` (terminal), and the receive loop stops
there — a following AudioOnly frame is never processed and the session
ends with one forced empty segment — contradicting "not terminal: the
receive loop continues reading further frames". -/
theorem frontend_frame_not_terminal_counterexample :
    parse_response [0x11, 0xc0, 0x10, 0x00, 0, 0, 0, 0] = some ⟨[], true, none⟩ ∧
    runFrames 100
      [[0x11, 0xc0, 0x10, 0x00, 0, 0, 0, 0],
       [0x11, 0xb1, 0x11, 0x00, 0, 0, 0, 1, 0, 0, 0, 2, 7, 7]] ⟨[], []⟩ =
      some ⟨[], [[]]⟩ := by
  decide

/-- Amended claim C5: decoding fails (Python `IndexError` while reading
the four header bytes) exactly when the raw buffer is shorter than 4
bytes — so a 3-byte raw response does fail — but a declared header size
whose byte span exceeds the buffer length does NOT make decoding fail:
Python slicing truncates, leaving an empty payload. -/
theorem decode_fails_iff_short (res : List Nat) :
    decode res = none ↔ res.length < 4 := by
  rcases res with - | ⟨a, - | ⟨b, - | ⟨c, - | ⟨d, rest⟩⟩⟩⟩ <;> simp [decode]

/-- Counterexample to claim C5 as stated: a 4-byte buffer declaring a
header size of 2 units (8 bytes > 4 bytes available) decodes without
failure, to a frame with empty header extension and empty payload. -/
theorem decode_malformed_counterexample :
    decode [0x12, 0xb0, 0x00, 0x00] = some ⟨1, 2, 0xb, 0, 0, 0, 0, [], []⟩ ∧
    ([0x12, 0xb0, 0x00, 0x00] : List Nat).length < 2 * 4 := by
  decide

/-- Claim C2: whenever an Error response frame (message-type nibble
`0xf`) is interpreted without an exception, the outcome is terminal,
writes no audio, and surfaces — via the `logger.error` calls that model
the spec's `ProtocolError{code, message}` — the 4-byte big-endian
unsigned error code from the payload head together with the message
bytes, gzip-decompressed exactly when the compression nibble equals 1. -/
theorem error_frame_surfaces_code_and_message (res : List Nat) (b0 b1 b2 : Nat)
    (out : ParseOutcome)
    (h0 : res[0]? = some b0) (h1 : res[1]? = some b1) (h2 : res[2]? = some b2)
    (h3 : (res[3]?).isSome = true)
    (hmt : b1 / 16 = 0xf)
    (hp : parse_response res = some out) :
    out.done = true ∧ out.audio = [] ∧
    ∃ msg,
      (if b2 % 16 = 1 then gzip_decompress ((res.drop ((b0 % 16) * 4)).drop 8)
       else some ((res.drop ((b0 % 16) * 4)).drop 8)) = some msg ∧
      out.errorLogged = some (natFromBytesBE ((res.drop ((b0 % 16) * 4)).take 4), msg) := by
  obtain ⟨b3, hb3⟩ := Option.isSome_iff_exists.mp h3
  simp only [parse_response, decode, h0, h1, h2, hb3, hmt] at hp
  norm_num at hp
  split at hp
  · exact Option.noConfusion hp
  · rename_i msg hmsg
    split at hp
    · cases hp
      refine ⟨rfl, rfl, msg, ?_, ?_⟩
      · rw [← hmsg]
        simp [List.drop_drop]
      · simp [List.take_drop]
    · exact Option.noConfusion hp

/-- Closed instance of `error_frame_surfaces_code_and_message`: an error
frame with code 55 and gzip-compressed message "invalid voice" surfaces
exactly that code and message and is terminal. -/
theorem error_frame_surfaces_code_and_message_witness :
    ∃ out,
      parse_response ([0x11, 0xf1, 0x11, 0x00] ++ [0, 0, 0, 55] ++ [0, 0, 0, 15] ++
          gzip_compress (asciiBytes "invalid voice")) = some out ∧
      out.done = true ∧ out.audio = [] ∧
      out.errorLogged = some (55, asciiBytes "invalid voice") := by
  have hp : parse_response ([0x11, 0xf1, 0x11, 0x00] ++ [0, 0, 0, 55] ++ [0, 0, 0, 15] ++
      gzip_compress (asciiBytes "invalid voice")) =
      some ⟨[], true, some (55, asciiBytes "invalid voice")⟩ := by decide
  have h := error_frame_surfaces_code_and_message
    ([0x11, 0xf1, 0x11, 0x00] ++ [0, 0, 0, 55] ++ [0, 0, 0, 15] ++
      gzip_compress (asciiBytes "invalid voice")) 0x11 0xf1 0x11
    ⟨[], true, some (55, asciiBytes "invalid voice")⟩
    (by decide) (by decide) (by decide) (by decide) (by decide) hp
  exact ⟨_, hp, h.1, h.2.1, rfl⟩

/-- The width of `toBytesBE k n` is `k`. -/
theorem toBytesBE_length (k n : Nat) : (toBytesBE k n).length = k := by
  induction k generalizing n with
  | zero => rfl
  | succ k ih => simp [toBytesBE, ih]

/-- Reading back one appended low byte. -/
theorem natFromBytesBE_concat (xs : List Nat) (b : Nat) :
    natFromBytesBE (xs ++ [b]) = natFromBytesBE xs * 256 + b := by
  simp [natFromBytesBE, List.foldl_append]

/-- Big-endian write/read round-trip for values that fit the width. -/
theorem natFromBytesBE_toBytesBE (k n : Nat) (h : n < 256 ^ k) :
    natFromBytesBE (toBytesBE k n) = n := by
  induction k generalizing n with
  | zero =>
    simp only [pow_zero, Nat.lt_one_iff] at h
    simp [toBytesBE, natFromBytesBE, h]
  | succ k ih =>
    have hdiv : n / 256 < 256 ^ k := by
      apply Nat.div_lt_of_lt_mul
      calc n < 256 ^ (k + 1) := h
        _ = 256 * 256 ^ k := by rw [pow_succ]; ring
    rw [toBytesBE, natFromBytesBE_concat, ih (n / 256) hdiv]
    omega

/-- Claim C6: for every request payload whose compressed form fits the
4-byte length field, `encode_request` produces exactly the fixed header
`0x11 0x10 0x11 0x00`, then the 4-byte big-endian length of the
gzip-compressed payload, then the compressed payload; the output length
is `8 + len(compressed)` and the length field is computed after
compression (it decodes back to the compressed length). -/
theorem encode_request_layout (payload : List Nat)
    (h : (gzip_compress payload).length < 256 ^ 4) :
    ∃ out, encode_request payload = some out ∧
      out = default_header ++ toBytesBE 4 (gzip_compress payload).length ++
        gzip_compress payload ∧
      out.length = 8 + (gzip_compress payload).length ∧
      out.take 4 = [0x11, 0x10, 0x11, 0x00] ∧
      natFromBytesBE ((out.drop 4).take 4) = (gzip_compress payload).length := by
  have h' : (gzip_compress payload).length < 4294967296 := by
    calc (gzip_compress payload).length < 256 ^ 4 := h
      _ = 4294967296 := by norm_num
  refine ⟨default_header ++ toBytesBE 4 (gzip_compress payload).length ++ gzip_compress payload,
         ?_, rfl, ?_, ?_, ?_⟩
  · simp [encode_request, toBytesBEChecked, h']
  · simp [default_header, toBytesBE_length]
    omega
  · simp [default_header]
  · have hdrop : (default_header ++ toBytesBE 4 (gzip_compress payload).length ++
        gzip_compress payload).drop 4 =
        toBytesBE 4 (gzip_compress payload).length ++ gzip_compress payload := by
      rw [List.append_assoc]
      simp [default_header]
    rw [hdrop, List.take_left' (toBytesBE_length 4 _)]
    exact natFromBytesBE_toBytesBE 4 _ h

/-- Closed instance of `encode_request_layout` at the payload bytes of
"hi". -/
theorem encode_request_layout_witness :
    ∃ out, encode_request (asciiBytes "hi") = some out ∧
      out.length = 8 + (gzip_compress (asciiBytes "hi")).length ∧
      out.take 4 = [0x11, 0x10, 0x11, 0x00] := by
  obtain ⟨out, h1, -, h3, h4, -⟩ := encode_request_layout (asciiBytes "hi") (by decide)
  exact ⟨out, h1, h3, h4⟩

/-- Amended claim C7: the codec round-trip holds once the 4-byte length
field is stripped: decoding the frame produced by `encode_request`
yields a frame whose payload is the 4-byte big-endian length followed by
the compressed bytes, and gzip-decompressing the payload AFTER dropping
those 4 length bytes recovers the original payload exactly. -/
theorem roundtrip_after_length_strip (payload : List Nat)
    (h : (gzip_compress payload).length < 256 ^ 4) :
    ∃ out f, encode_request payload = some out ∧ decode out = some f ∧
      f.payload = toBytesBE 4 (gzip_compress payload).length ++ gzip_compress payload ∧
      gzip_decompress (f.payload.drop 4) = some payload := by
  obtain ⟨out, h1, h2, -, -, -⟩ := encode_request_layout payload h
  subst h2
  refine ⟨_, ⟨1, 1, 1, 0, 1, 1, 0, [],
      toBytesBE 4 (gzip_compress payload).length ++ gzip_compress payload⟩, h1, ?_, rfl, ?_⟩
  · simp [decode, default_header]
  · show gzip_decompress ((toBytesBE 4 (gzip_compress payload).length ++
        gzip_compress payload).drop 4) = some payload
    rw [List.drop_left' (toBytesBE_length 4 _)]
    rfl

/-- Closed instance of `roundtrip_after_length_strip` at the payload
bytes of "hi". -/
theorem roundtrip_after_length_strip_witness :
    ∃ out f, encode_request (asciiBytes "hi") = some out ∧ decode out = some f ∧
      gzip_decompress (f.payload.drop 4) = some (asciiBytes "hi") := by
  obtain ⟨out, f, h1, h2, -, h4⟩ := roundtrip_after_length_strip (asciiBytes "hi") (by decide)
  exact ⟨out, f, h1, h2, h4⟩

/-- Counterexample to claim C7 as stated: for the payload bytes of
"hello", gzip-decompressing the decoded frame's payload directly — i.e.
without first stripping the 4-byte length field that `encode_request`
places between the header and the compressed bytes — fails, so
`decode(encode(payload))` does not recover the original payload that
way. -/
theorem roundtrip_counterexample :
    ∃ out f, encode_request (asciiBytes "hello") = some out ∧ decode out = some f ∧
      gzip_decompress f.payload = none := by
  refine ⟨[0x11, 0x10, 0x11, 0x00, 0, 0, 0, 7, 0x1f, 0x8b, 104, 101, 108, 108, 111],
         ⟨1, 1, 1, 0, 1, 1, 0, [], [0, 0, 0, 7, 0x1f, 0x8b, 104, 101, 108, 108, 111]⟩,
         ?_, ?_, ?_⟩ <;> decide

/-- Running the loop over non-terminal events and then one terminal
event: the final state has an empty buffer, its closed list extends the
initial one by some over-threshold middle segments plus one forced last
segment, and those new segments hold exactly the initial buffer plus all
appended bytes. -/
theorem runEvents_concat_done (H : Nat) (a : List Nat) :
    ∀ (front : List (List Nat × Bool)) (s : AsmState), (∀ e ∈ front, e.2 = false) →
    ∃ mids lastSeg,
      runEvents H (front ++ [(a, true)]) s = some ⟨[], s.closed ++ mids ++ [lastSeg]⟩ ∧
      (∀ m ∈ mids, H < m.length) ∧
      (mids.map List.length).sum + lastSeg.length =
        s.buf.length + (front.map fun e => e.1.length).sum + a.length := by
  intro front
  induction front with
  | nil =>
    intro s _
    refine ⟨[], s.buf ++ a, ?_, by simp, by simp⟩
    simp [runEvents, assembleStep]
  | cons e front ih =>
    intro s hall
    obtain ⟨a0, d0⟩ := e
    have hd0 : d0 = false := hall (a0, d0) (List.mem_cons_self _ _)
    subst hd0
    have hall' : ∀ e ∈ front, e.2 = false := fun e he => hall e (List.mem_cons_of_mem _ he)
    by_cases hcl : H < (s.buf ++ a0).length
    · obtain ⟨mids, lastSeg, hrun, hmid, hsum⟩ := ih ⟨[], s.closed ++ [s.buf ++ a0]⟩ hall'
      refine ⟨(s.buf ++ a0) :: mids, lastSeg, ?_, ?_, ?_⟩
      · rw [List.cons_append, runEvents]
        simp only [assembleStep, hcl, or_true, if_true, if_pos]
        simpa [List.append_assoc] using hrun
      · intro m hm
        rcases List.mem_cons.mp hm with h | h
        · exact h ▸ hcl
        · exact hmid m h
      · simp only [List.map_cons, List.sum_cons] at hsum ⊢
        simp at hsum
        simp [List.length_append]
        omega
    · obtain ⟨mids, lastSeg, hrun, hmid, hsum⟩ := ih ⟨s.buf ++ a0, s.closed⟩ hall'
      refine ⟨mids, lastSeg, ?_, hmid, ?_⟩
      · rw [List.cons_append, runEvents]
        simp only [assembleStep, hcl, or_false, if_false]
        simpa using hrun
      · simp only [List.length_append] at hsum
        simp
        omega

/-- Claim C4: for any run of the receive loop consisting of non-terminal
appends followed by the forced terminal close, the sum of all closed
segments' byte lengths equals the total number of appended bytes, every
closed segment except the final forced one is strictly longer than the
threshold, and the buffer ends empty. -/
theorem assembler_conservation_and_threshold (H : Nat) (front : List (List Nat × Bool))
    (a : List Nat) (hf : ∀ e ∈ front, e.2 = false) :
    ∃ t, runEvents H (front ++ [(a, true)]) ⟨[], []⟩ = some t ∧
      (t.closed.map List.length).sum = ((front ++ [(a, true)]).map fun e => e.1.length).sum ∧
      (∀ seg ∈ t.closed.dropLast, H < seg.length) ∧
      t.buf = [] := by
  obtain ⟨mids, lastSeg, hrun, hmid, hsum⟩ := runEvents_concat_done H a front ⟨[], []⟩ hf
  refine ⟨⟨[], mids ++ [lastSeg]⟩, by simpa using hrun, ?_, ?_, rfl⟩
  · simp only [List.map_append, List.sum_append, List.map_cons, List.sum_cons]
    simp at hsum ⊢
    omega
  · intro seg hseg
    rw [List.dropLast_concat] at hseg
    exact hmid seg hseg

/-- Closed instance of `assembler_conservation_and_threshold`: threshold
2, one 3-byte append (closes an over-threshold segment) then a forced
1-byte close; the closed lengths sum to the 4 appended bytes. -/
theorem assembler_conservation_and_threshold_witness :
    ∃ t, runEvents 2 [([1, 2, 3], false), ([4], true)] ⟨[], []⟩ = some t ∧
      (t.closed.map List.length).sum = 4 ∧
      (∀ seg ∈ t.closed.dropLast, 2 < seg.length) ∧
      t.buf = [] := by
  obtain ⟨t, h1, h2, h3, h4⟩ :=
    assembler_conservation_and_threshold 2 [([1, 2, 3], false)] [4] (by simp)
  exact ⟨t, h1, by simpa using h2, h3, h4⟩

/-- Claim C9: a session in which every frame before the terminal one
parses with no audio bytes and no terminal flag, and the terminal frame
itself carries no audio, completes normally — `runFrames` returns a
final state rather than failing — with exactly one forced empty closed
segment and zero segments yielded to the caller. -/
theorem zero_audio_completes (H : Nat) (front : List (List Nat)) (lastF : List Nat)
    (hf : ∀ f ∈ front, ∃ o, parse_response f = some o ∧ o.audio = [] ∧ o.done = false)
    (hl : ∃ o, parse_response lastF = some o ∧ o.audio = [] ∧ o.done = true) :
    runFrames H (front ++ [lastF]) ⟨[], []⟩ = some ⟨[], [[]]⟩ ∧
    yieldedSegments ⟨[], [[]]⟩ = [] := by
  refine ⟨?_, by simp [yieldedSegments]⟩
  induction front with
  | nil =>
    obtain ⟨o, hp, ha, hd⟩ := hl
    simp [runFrames, hp, ha, hd, assembleStep]
  | cons f0 front ih =>
    obtain ⟨o0, hp0, ha0, hd0⟩ := hf f0 (List.mem_cons_self _ _)
    have ih' := ih fun f hfm => hf f (List.mem_cons_of_mem _ hfm)
    rw [List.cons_append, runFrames, hp0]
    simp only [ha0, hd0, assembleStep, List.append_nil, List.length_nil]
    simpa using ih'

/-- Closed instance of `zero_audio_completes`: an AudioOnly ACK frame
(flags 0) followed by a terminal frame; the session completes with no
yielded segments. -/
theorem zero_audio_completes_witness :
    runFrames 100 [[0x11, 0xb0, 0x11, 0x00], [0x11, 0x10, 0x11, 0x00]] ⟨[], []⟩ =
      some ⟨[], [[]]⟩ ∧
    yieldedSegments ⟨[], [[]]⟩ = [] := by
  have h := zero_audio_completes 100 [[0x11, 0xb0, 0x11, 0x00]] [0x11, 0x10, 0x11, 0x00]
    (by intro f hfm
        simp only [List.mem_singleton] at hfm
        subst hfm
        exact ⟨⟨[], false, none⟩, by decide, rfl, rfl⟩)
    ⟨⟨[], true, none⟩, by decide, rfl, rfl⟩
  simpa using h

end Volcengine
